import Mathlib

/-!
Verification of the semantic model builder behind the BNG parser front-end.

The repository ships the grammar-generated tree-walker interfaces
(src/parser/grammar/BNGParserVisitor.py and BNGParserListener.py).  The
semantic model builder that sits behind those interfaces is specified in
spec.md; it is not part of the generated sources, so its data model and
operations are modelled here directly from the spec (each such definition
says so in its doc comment).  The generated listener itself is embedded
from its source at the end of the definitions section.
-/

namespace BNG

/-- Modelled from the spec: bond marker on a component pattern (spec §3) —
none, wildcard `+`, an explicit numeric bond id, or an explicit count. -/
inductive BondMarker where
  | unbound
  | wildcard
  | bondId (id : ℕ)
  | bondCount (n : ℕ)
deriving DecidableEq, Repr

/-- Modelled from the spec: state marker on a component pattern (spec §3) —
unset, wildcard `?`, or a literal state label. -/
inductive StateMarker where
  | unset
  | wildcard
  | literal (s : String)
deriving DecidableEq, Repr

/-- Modelled from the spec: a component pattern inside a molecule pattern
(spec §3): component name, optional state, optional bond marker. -/
structure ComponentPattern where
  name : String
  state : StateMarker
  bond : BondMarker
deriving DecidableEq, Repr

/-- Modelled from the spec: a molecule pattern (spec §3): a by-name reference
to a MoleculeType, an ordered component pattern list, and an optional
compartment tag. -/
structure MoleculePattern where
  typeName : String
  components : List ComponentPattern
  compartment : Option String
deriving DecidableEq, Repr

/-- Modelled from the spec: a species/rule pattern (spec §3): an ordered
sequence of molecule patterns connected by shared bond ids.  The spec (§4.4)
says a pattern that is a sub-pattern/reactant fragment records that
distinction explicitly ("not by counting"), hence the `isFragment` flag. -/
structure Pattern where
  molecules : List MoleculePattern
  isFragment : Bool
  compartment : Option String
deriving DecidableEq, Repr

/-- Modelled from the spec: the two bond-consistency failure modes of
`validateBonds` (spec §4.4). -/
inductive BondError where
  | DanglingBond (id : ℕ)
  | BondIdReused (id : ℕ)
deriving DecidableEq, Repr

/-- Explicit numeric bond sites contributed by the components of one molecule
pattern at molecule index `i`: each entry is (bond id, molecule index,
component index). -/
def componentBondSites (i : ℕ) (cs : List ComponentPattern) : List (ℕ × ℕ × ℕ) :=
  cs.enum.filterMap fun jc =>
    match jc.2.bond with
    | .bondId n => some (n, i, jc.1)
    | _ => none

/-- Modelled from the spec: every explicit numeric bond id occurring in the
pattern, together with the (molecule-index, component-index) site bearing it
(spec §4.4). -/
def bondSites (p : Pattern) : List (ℕ × ℕ × ℕ) :=
  p.molecules.enum.flatMap fun im => componentBondSites im.1 im.2.components

/-- The explicit numeric bond ids occurring in a pattern, one entry per
occurrence. -/
def bondIds (p : Pattern) : List ℕ :=
  (bondSites p).map fun s => s.1

/-- The (molecule-index, component-index) sites bearing bond id `n`. -/
def sitesOf (p : Pattern) (n : ℕ) : List (ℕ × ℕ) :=
  (bondSites p).filterMap fun s => if s.1 = n then some s.2 else none

/-- Modelled from the spec: the per-id bond-consistency check (spec §4.4):
exactly two sites form one edge; one site is a dangling bond, permitted only
for an explicitly marked fragment pattern; three or more sites reuse the id.
Zero sites cannot occur for an id drawn from `bondIds` (ids are only created
by use). -/
def checkBondId (p : Pattern) (n : ℕ) : Except BondError Unit :=
  let k := (sitesOf p n).length
  if k = 2 then .ok ()
  else if k = 1 then
    if p.isFragment then .ok () else .error (.DanglingBond n)
  else .error (.BondIdReused n)

/-- Modelled from the spec: `validateBonds(pattern) -> Result<(), BondError>`
(spec §4.4): collect every explicit numeric bond id occurring in the pattern
and check each one locally within this pattern. -/
def validateBonds (p : Pattern) : Except BondError Unit :=
  (bondIds p).forM (checkBondId p)

/-- Modelled from the spec: prefix unary operators of the expression language
(spec §4.2): arithmetic negation and logical not. -/
inductive UnaryOp where
  | neg
  | lnot
deriving DecidableEq, Repr

/-- Modelled from the spec: binary operators of the expression language
(spec §4.2), one per precedence family: power, multiplicative, additive,
relational, equality, logical-and, logical-or. -/
inductive BinOp where
  | add | sub | mul | div | pow
  | ltB | leB | gtB | geB | eqB | neB
  | landB | lorB
deriving DecidableEq, Repr

/-- Modelled from the spec: `ExpressionNode` (spec §3): a tagged variant over
literal number, parameter reference, observable reference, function call,
unary op, binary op, and conditional (ternary). -/
inductive ExpressionNode where
  | lit (v : ℚ)
  | paramRef (name : String)
  | obsRef (name : String)
  | callE (fname : String) (args : List ExpressionNode)
  | unary (op : UnaryOp) (arg : ExpressionNode)
  | binop (op : BinOp) (lhs rhs : ExpressionNode)
  | cond (c t f : ExpressionNode)
deriving Repr

/-- Modelled from the spec: the token classes of the expression sub-grammar
(the lexing front-end is an external collaborator; spec §1, §6).  Numeric
literals carry their value. -/
inductive Tok where
  | num (v : ℚ)
  | ident (s : String)
  | plus | minus | star | slash | caret | bang
  | ltT | leT | gtT | geT | eqeq | neq
  | andand | oror
  | question | colon
  | lparen | rparen
  | comma
deriving DecidableEq, Repr

/- Modelled from the spec: the expression compiler (spec §4.2), written as
one recursive-descent routine per grammar production of the declared
precedence chain: conditional (right-assoc) → logical-or → logical-and →
equality → relational → additive → multiplicative → power (right-assoc) →
unary → primary.  Each routine consumes tokens and returns the compiled
`ExpressionNode` plus the remaining tokens; left-assoc chains fold leftwards
via their Rest routine, the power level recurses into itself on the right.
The `fuel` argument only bounds recursion depth; every call strictly
decreases it. -/
mutual

/-- Modelled from the spec: compile a conditional_expr (spec §4.2). -/
def parseConditional : ℕ → List Tok → Option (ExpressionNode × List Tok)
  | 0, _ => none
  | fuel+1, ts =>
    match parseOr fuel ts with
    | none => none
    | some (c, rest) =>
      match rest with
      | .question :: rest1 =>
        match parseConditional fuel rest1 with
        | none => none
        | some (t, rest2) =>
          match rest2 with
          | .colon :: rest3 =>
            match parseConditional fuel rest3 with
            | none => none
            | some (f, rest4) => some (.cond c t f, rest4)
          | _ => none
      | _ => some (c, rest)

def parseOr : ℕ → List Tok → Option (ExpressionNode × List Tok)
  | 0, _ => none
  | fuel+1, ts =>
    match parseAnd fuel ts with
    | none => none
    | some (a, rest) => parseOrRest fuel a rest

def parseOrRest : ℕ → ExpressionNode → List Tok → Option (ExpressionNode × List Tok)
  | 0, _, _ => none
  | fuel+1, acc, .oror :: ts =>
    match parseAnd fuel ts with
    | none => none
    | some (b, rest) => parseOrRest fuel (.binop .lorB acc b) rest
  | _+1, acc, ts => some (acc, ts)

def parseAnd : ℕ → List Tok → Option (ExpressionNode × List Tok)
  | 0, _ => none
  | fuel+1, ts =>
    match parseEquality fuel ts with
    | none => none
    | some (a, rest) => parseAndRest fuel a rest

def parseAndRest : ℕ → ExpressionNode → List Tok → Option (ExpressionNode × List Tok)
  | 0, _, _ => none
  | fuel+1, acc, .andand :: ts =>
    match parseEquality fuel ts with
    | none => none
    | some (b, rest) => parseAndRest fuel (.binop .landB acc b) rest
  | _+1, acc, ts => some (acc, ts)

def parseEquality : ℕ → List Tok → Option (ExpressionNode × List Tok)
  | 0, _ => none
  | fuel+1, ts =>
    match parseRelational fuel ts with
    | none => none
    | some (a, rest) => parseEqualityRest fuel a rest

def parseEqualityRest : ℕ → ExpressionNode → List Tok → Option (ExpressionNode × List Tok)
  | 0, _, _ => none
  | fuel+1, acc, .eqeq :: ts =>
    match parseRelational fuel ts with
    | none => none
    | some (b, rest) => parseEqualityRest fuel (.binop .eqB acc b) rest
  | fuel+1, acc, .neq :: ts =>
    match parseRelational fuel ts with
    | none => none
    | some (b, rest) => parseEqualityRest fuel (.binop .neB acc b) rest
  | _+1, acc, ts => some (acc, ts)

def parseRelational : ℕ → List Tok → Option (ExpressionNode × List Tok)
  | 0, _ => none
  | fuel+1, ts =>
    match parseAdditive fuel ts with
    | none => none
    | some (a, rest) => parseRelationalRest fuel a rest

def parseRelationalRest : ℕ → ExpressionNode → List Tok → Option (ExpressionNode × List Tok)
  | 0, _, _ => none
  | fuel+1, acc, .ltT :: ts =>
    match parseAdditive fuel ts with
    | none => none
    | some (b, rest) => parseRelationalRest fuel (.binop .ltB acc b) rest
  | fuel+1, acc, .leT :: ts =>
    match parseAdditive fuel ts with
    | none => none
    | some (b, rest) => parseRelationalRest fuel (.binop .leB acc b) rest
  | fuel+1, acc, .gtT :: ts =>
    match parseAdditive fuel ts with
    | none => none
    | some (b, rest) => parseRelationalRest fuel (.binop .gtB acc b) rest
  | fuel+1, acc, .geT :: ts =>
    match parseAdditive fuel ts with
    | none => none
    | some (b, rest) => parseRelationalRest fuel (.binop .geB acc b) rest
  | _+1, acc, ts => some (acc, ts)

def parseAdditive : ℕ → List Tok → Option (ExpressionNode × List Tok)
  | 0, _ => none
  | fuel+1, ts =>
    match parseMultiplicative fuel ts with
    | none => none
    | some (a, rest) => parseAdditiveRest fuel a rest

def parseAdditiveRest : ℕ → ExpressionNode → List Tok → Option (ExpressionNode × List Tok)
  | 0, _, _ => none
  | fuel+1, acc, .plus :: ts =>
    match parseMultiplicative fuel ts with
    | none => none
    | some (b, rest) => parseAdditiveRest fuel (.binop .add acc b) rest
  | fuel+1, acc, .minus :: ts =>
    match parseMultiplicative fuel ts with
    | none => none
    | some (b, rest) => parseAdditiveRest fuel (.binop .sub acc b) rest
  | _+1, acc, ts => some (acc, ts)

def parseMultiplicative : ℕ → List Tok → Option (ExpressionNode × List Tok)
  | 0, _ => none
  | fuel+1, ts =>
    match parsePower fuel ts with
    | none => none
    | some (a, rest) => parseMultiplicativeRest fuel a rest

def parseMultiplicativeRest : ℕ → ExpressionNode → List Tok → Option (ExpressionNode × List Tok)
  | 0, _, _ => none
  | fuel+1, acc, .star :: ts =>
    match parsePower fuel ts with
    | none => none
    | some (b, rest) => parseMultiplicativeRest fuel (.binop .mul acc b) rest
  | fuel+1, acc, .slash :: ts =>
    match parsePower fuel ts with
    | none => none
    | some (b, rest) => parseMultiplicativeRest fuel (.binop .div acc b) rest
  | _+1, acc, ts => some (acc, ts)

def parsePower : ℕ → List Tok → Option (ExpressionNode × List Tok)
  | 0, _ => none
  | fuel+1, ts =>
    match parseUnary fuel ts with
    | none => none
    | some (u, rest) =>
      match rest with
      | .caret :: rest1 =>
        match parsePower fuel rest1 with
        | none => none
        | some (e, rest2) => some (.binop .pow u e, rest2)
      | _ => some (u, rest)

def parseUnary : ℕ → List Tok → Option (ExpressionNode × List Tok)
  | 0, _ => none
  | fuel+1, .minus :: ts =>
    match parseUnary fuel ts with
    | none => none
    | some (u, rest) => some (.unary .neg u, rest)
  | fuel+1, .bang :: ts =>
    match parseUnary fuel ts with
    | none => none
    | some (u, rest) => some (.unary .lnot u, rest)
  | fuel+1, ts => parsePrimary fuel ts

def parsePrimary : ℕ → List Tok → Option (ExpressionNode × List Tok)
  | 0, _ => none
  | _+1, .num v :: ts => some (.lit v, ts)
  | _+1, .ident f :: .lparen :: .rparen :: ts => some (.callE f [], ts)
  | fuel+1, .ident f :: .lparen :: ts =>
    match parseArgs fuel ts with
    | none => none
    | some (args, rest) =>
      match rest with
      | .rparen :: rest1 => some (.callE f args, rest1)
      | _ => none
  | _+1, .ident s :: ts => some (.paramRef s, ts)
  | fuel+1, .lparen :: ts =>
    match parseConditional fuel ts with
    | none => none
    | some (e, rest) =>
      match rest with
      | .rparen :: rest1 => some (e, rest1)
      | _ => none
  | _+1, _ => none

def parseArgs : ℕ → List Tok → Option (List ExpressionNode × List Tok)
  | 0, _ => none
  | fuel+1, ts =>
    match parseConditional fuel ts with
    | none => none
    | some (e, rest) =>
      match rest with
      | .comma :: rest1 =>
        match parseArgs fuel rest1 with
        | none => none
        | some (es, rest2) => some (e :: es, rest2)
      | _ => some ([e], rest)

end

/-- Modelled from the spec: component specification on a molecule type
(spec §3): a name and the set of allowed state labels (possibly empty =
stateless). -/
structure ComponentSpec where
  name : String
  states : List String
deriving DecidableEq, Repr

/-- Modelled from the spec: `MoleculeType` (spec §3): name plus an ordered
sequence of component specifications. -/
structure MoleculeType where
  name : String
  components : List ComponentSpec
deriving DecidableEq, Repr

/-- Modelled from the spec: observable kind (spec §3): molecules-count vs
species-match count. -/
inductive ObsKind where
  | moleculesObs
  | speciesObs
deriving DecidableEq, Repr

/-- Modelled from the spec: the declared entities a symbol resolves to
(spec §3): parameter, molecule type, compartment, observable, function,
species. -/
inductive Entity where
  | paramE (expr : ExpressionNode)
  | molTypeE (mt : MoleculeType)
  | compartmentE (dim : ℕ) (size : ExpressionNode) (parent : Option String)
  | observableE (k : ObsKind) (pats : List Pattern)
  | functionE (ps : List String) (body : ExpressionNode)
  | speciesE (pat : Pattern) (init : ExpressionNode)
deriving Repr

/-- Modelled from the spec: entity kinds keying the symbol table (spec §3:
the Model is "keyed by name per entity kind"). -/
inductive Kind where
  | parameterK
  | moleculeTypeK
  | compartmentK
  | observableK
  | functionK
  | speciesK
deriving DecidableEq, Repr

/-- Modelled from the spec: the error taxonomy of the builder diagnostics
(spec §7). -/
inductive Diag where
  | DuplicateSymbol (k : Kind) (name : String)
  | UnknownSymbol (k : Kind) (name : String)
  | UnknownMoleculeType (name : String)
  | UnknownComponent (mol comp : String)
  | InvalidState (mol comp state : String)
  | DanglingBondD (id : ℕ)
  | BondIdReusedD (id : ℕ)
  | CyclicParameterDependency (name : String)
  | UnresolvedReference (name : String)
  | MalformedExpression
  | MalformedRateLaw
deriving DecidableEq, Repr

/-- Modelled from the spec: the Symbol Table (spec §4.1): a flat block-scoped
namespace from (kind, name) to declared entity, maintaining insertion order
for deterministic iteration. -/
structure SymbolTable where
  entries : List (Kind × String × Entity)
deriving Repr

/-- Modelled from the spec: `resolve(kind, name)` returns the entity or fails
with `UnknownSymbol` (spec §4.1). -/
def SymbolTable.resolve (tbl : SymbolTable) (k : Kind) (n : String) : Except Diag Entity :=
  match tbl.entries.find? (fun e => decide (e.1 = k ∧ e.2.1 = n)) with
  | some e => .ok e.2.2
  | none => .error (.UnknownSymbol k n)

/-- Modelled from the spec: `declare(kind, name, entity)` fails with
`DuplicateSymbol` if `name` is already declared for that kind, and otherwise
appends the entry, preserving insertion order (spec §4.1). -/
def SymbolTable.declare (tbl : SymbolTable) (k : Kind) (n : String) (ent : Entity) :
    Except Diag SymbolTable :=
  if tbl.entries.any (fun e => decide (e.1 = k ∧ e.2.1 = n)) then
    .error (.DuplicateSymbol k n)
  else
    .ok ⟨tbl.entries ++ [(k, n, ent)]⟩

/-- Find the component specification named `cname` on a molecule type. -/
def findComponent (mt : MoleculeType) (cname : String) : Option ComponentSpec :=
  mt.components.find? (fun c => c.name == cname)

/-- Modelled from the spec: per-component-pattern verification of
`buildPattern` (spec §4.3): (a) the component name must exist on the resolved
molecule type, (b) a literal state must be in that component's allowed-state
set, (c) bond markers are syntactically valid (every `BondMarker` value
already is).  Wildcard state `?` and wildcard bond `+` are existential, not
referential, so they are accepted without further resolution. -/
def checkComponentPattern (mt : MoleculeType) (cp : ComponentPattern) : Except Diag Unit :=
  match findComponent mt cp.name with
  | none => .error (.UnknownComponent mt.name cp.name)
  | some c =>
    match cp.state with
    | .unset => .ok ()
    | .wildcard => .ok ()
    | .literal s => if s ∈ c.states then .ok () else .error (.InvalidState mt.name cp.name s)

/-- Modelled from the spec: resolve one molecule pattern against the
MoleculeType table and verify each component pattern (spec §4.3). -/
def buildMoleculePattern (tbl : SymbolTable) (mp : MoleculePattern) : Except Diag Unit :=
  match tbl.resolve .moleculeTypeK mp.typeName with
  | .ok (.molTypeE mt) => mp.components.forM (checkComponentPattern mt)
  | _ => .error (.UnknownMoleculeType mp.typeName)

/-- Reflect a bond-consistency error into the diagnostic taxonomy. -/
def bondErrToDiag : BondError → Diag
  | .DanglingBond n => .DanglingBondD n
  | .BondIdReused n => .BondIdReusedD n

/-- Modelled from the spec: `buildPattern` (spec §4.3) resolves each molecule
reference, verifies every component pattern, and runs the bond-consistency
check of §4.4 on the whole pattern. -/
def buildPattern (tbl : SymbolTable) (p : Pattern) : Except Diag Unit :=
  match p.molecules.forM (buildMoleculePattern tbl) with
  | .error d => .error d
  | .ok _ =>
    match validateBonds p with
    | .error e => .error (bondErrToDiag e)
    | .ok _ => .ok ()

/-- Modelled from the spec: `ReactionRule` (spec §3): optional label, ordered
reactant and product pattern lists, a rate-law expression, and modifier
flags.  A reversible declaration expands into two directional values of this
type (spec §4.5). -/
structure ReactionRule where
  label : Option String
  reactants : List Pattern
  products : List Pattern
  rate : ExpressionNode
  modifiers : List String
deriving Repr

/-- Modelled from the spec: `defineRule(reactants, products, rateExprs,
modifiers)` (spec §4.5): exactly one rate expression gives one irreversible
directional rule; two rate expressions (a reversible arrow) give two
directional rules sharing the same pattern pair reversed, the first rate on
the forward direction and the second on the reverse. -/
def defineRule (label : Option String) (reactants products : List Pattern)
    (rateExprs : List ExpressionNode) (modifiers : List String) :
    Except Diag (List ReactionRule) :=
  match rateExprs with
  | [kf] => .ok [⟨label, reactants, products, kf, modifiers⟩]
  | [kf, kr] => .ok [⟨label, reactants, products, kf, modifiers⟩,
                     ⟨label, products, reactants, kr, modifiers⟩]
  | _ => .error .MalformedRateLaw

/-- Per-pattern bond validation over every reactant and product pattern of a
rule: bond ids are local to one pattern, so the rule-level check is just the
conjunction of the independent per-pattern checks (spec §4.4). -/
def validateRuleBonds (r : ReactionRule) : Except BondError Unit :=
  (r.reactants ++ r.products).forM validateBonds

/-- Modelled from the spec: evaluation failure modes of `evaluate(node, env)`
(spec §4.2): `DivisionByZero`, `DomainError`, `UnboundSymbol`. -/
inductive EvalError where
  | DivisionByZero
  | DomainError
  | UnboundSymbol (name : String)
deriving DecidableEq, Repr

/-- Modelled from the spec: the binding environment of `evaluate(node, env)`
(spec §4.2): current parameter values, current observable counts, and the
named functions (built-in math functions are recognized by name; user
functions are bound here after finalization). -/
structure EvalEnv where
  params : List (String × ℚ)
  observables : List (String × ℚ)
  funcs : List (String × (List ℚ → Except EvalError ℚ))

/-- The empty evaluation environment. -/
def emptyEnv : EvalEnv := ⟨[], [], []⟩

/-- Rational power: the numeric domain is modelled by the exact rationals, so
an exponent is admitted when it is an integer (a non-integer exponent has no
exact rational value and is a `DomainError`, as is `0` raised to a negative
power). -/
def ratPow (a b : ℚ) : Except EvalError ℚ :=
  if b.den = 1 then
    if 0 ≤ b.num then .ok (a ^ b.num.toNat)
    else if a = 0 then .error .DomainError
    else .ok (a ^ b.num)
  else .error .DomainError

/-- Modelled from the spec: meaning of each binary operator on numbers
(spec §4.2); comparisons and logical connectives yield 1 or 0, division by
zero fails with `DivisionByZero`. -/
def applyBinOp (op : BinOp) (a b : ℚ) : Except EvalError ℚ :=
  match op with
  | .add => .ok (a + b)
  | .sub => .ok (a - b)
  | .mul => .ok (a * b)
  | .div => if b = 0 then .error .DivisionByZero else .ok (a / b)
  | .pow => ratPow a b
  | .ltB => .ok (if a < b then 1 else 0)
  | .leB => .ok (if a ≤ b then 1 else 0)
  | .gtB => .ok (if b < a then 1 else 0)
  | .geB => .ok (if b ≤ a then 1 else 0)
  | .eqB => .ok (if a = b then 1 else 0)
  | .neB => .ok (if a = b then 0 else 1)
  | .landB => .ok (if a ≠ 0 ∧ b ≠ 0 then 1 else 0)
  | .lorB => .ok (if a ≠ 0 ∨ b ≠ 0 then 1 else 0)

/- Modelled from the spec: `evaluate(node, env) -> number` (spec §4.2): pure
and side-effect-free, failing with `UnboundSymbol` if the environment lacks a
referenced symbol's current value. -/
mutual

/-- Modelled from the spec: evaluate a compiled expression node against a
binding environment (spec §4.2). -/
def evaluate : ExpressionNode → EvalEnv → Except EvalError ℚ
  | .lit v, _ => .ok v
  | .paramRef n, env =>
    match env.params.find? (fun q => q.1 == n) with
    | some q => .ok q.2
    | none => .error (.UnboundSymbol n)
  | .obsRef n, env =>
    match env.observables.find? (fun q => q.1 == n) with
    | some q => .ok q.2
    | none => .error (.UnboundSymbol n)
  | .callE f args, env =>
    match evalArgs args env with
    | .error e => .error e
    | .ok vs =>
      match env.funcs.find? (fun q => q.1 == f) with
      | some q => q.2 vs
      | none => .error (.UnboundSymbol f)
  | .unary .neg e, env =>
    match evaluate e env with
    | .error err => .error err
    | .ok v => .ok (-v)
  | .unary .lnot e, env =>
    match evaluate e env with
    | .error err => .error err
    | .ok v => .ok (if v = 0 then 1 else 0)
  | .binop op l r, env =>
    match evaluate l env with
    | .error err => .error err
    | .ok a =>
      match evaluate r env with
      | .error err => .error err
      | .ok b => applyBinOp op a b
  | .cond c t f, env =>
    match evaluate c env with
    | .error err => .error err
    | .ok v => if v = 0 then evaluate f env else evaluate t env

/-- Evaluate a function-call argument list left to right. -/
def evalArgs : List ExpressionNode → EvalEnv → Except EvalError (List ℚ)
  | [], _ => .ok []
  | e :: es, env =>
    match evaluate e env with
    | .error err => .error err
    | .ok v =>
      match evalArgs es env with
      | .error err => .error err
      | .ok vs => .ok (v :: vs)

end

/-- Modelled from the spec: the driver entry for the expression compiler:
compile a complete token sequence into one `ExpressionNode` (spec §4.2); the
fuel bound exceeds any derivation depth for the input length. -/
def compile (ts : List Tok) : Except Diag ExpressionNode :=
  match parseConditional (12 * (ts.length + 1)) ts with
  | some (e, []) => .ok e
  | _ => .error .MalformedExpression

/- Parameter finalization (spec §4.1, §7, §9): phase 2 resolves every
cross-reference over the dependency graph built from reference edges and
detects cycles. -/

mutual

/-- The parameter names referenced by an expression (the reference edges of
the parameter dependency graph, spec §9). -/
def paramRefs : ExpressionNode → List String
  | .lit _ => []
  | .paramRef n => [n]
  | .obsRef _ => []
  | .callE _ args => paramRefsList args
  | .unary _ e => paramRefs e
  | .binop _ l r => paramRefs l ++ paramRefs r
  | .cond c t f => paramRefs c ++ paramRefs t ++ paramRefs f

/-- Parameter names referenced by a list of expressions. -/
def paramRefsList : List ExpressionNode → List String
  | [] => []
  | e :: es => paramRefs e ++ paramRefsList es

end

/-- A parameters block: the declared (name, expression) pairs in declaration
order. -/
abbrev ParamBlock := List (String × ExpressionNode)

/-- The direct dependencies of parameter `n` in a block: the parameter names
referenced by its expression. -/
def depsOf (ps : ParamBlock) (n : String) : List String :=
  match ps.find? (fun q => q.1 == n) with
  | some q => paramRefs q.2
  | none => []

/-- One round of expanding a reachable-name set along direct dependency
edges. -/
def reachStep (ps : ParamBlock) (s : List String) : List String :=
  (s ++ s.flatMap (depsOf ps)).dedup

/-- Iterate dependency expansion `k` times. -/
def reachAux (ps : ParamBlock) : ℕ → List String → List String
  | 0, s => s
  | k+1, s => reachAux ps k (reachStep ps s)

/-- Modelled from the spec: the set of parameter names a parameter
transitively references, computed by iterating the dependency edges to a
fixed point (`ps.length` rounds suffice for a block of `ps.length`
parameters; spec §9 cycle detection over the reference-edge graph). -/
def transDeps (ps : ParamBlock) (n : String) : List String :=
  reachAux ps ps.length (depsOf ps n)

/-- A parameter whose expression transitively references itself. -/
def selfDependent (ps : ParamBlock) (n : String) : Bool :=
  decide (n ∈ transDeps ps n)

mutual

/-- Size of an expression tree, used to bound the resolution depth of the
finalization pass. -/
def exprSize : ExpressionNode → ℕ
  | .lit _ => 1
  | .paramRef _ => 1
  | .obsRef _ => 1
  | .callE _ args => 1 + exprSizeList args
  | .unary _ e => 1 + exprSize e
  | .binop _ l r => 1 + exprSize l + exprSize r
  | .cond c t f => 1 + exprSize c + exprSize t + exprSize f

/-- Size of a list of expression trees. -/
def exprSizeList : List ExpressionNode → ℕ
  | [] => 0
  | e :: es => exprSize e + exprSizeList es

end

/-- A resolution-depth bound ample for any acyclic parameters block: one unit
per block entry plus the total size of every declared expression. -/
def blockFuel (ps : ParamBlock) : ℕ :=
  ps.length + 1 + (ps.map (fun q => exprSize q.2)).sum

/-- Modelled from the spec: deferred evaluation of a parameter expression at
finalization (spec §4.1-§4.2): a parameter reference is resolved against the
block itself (this is what makes forward references legal); an observable
reference or a function call has no static value at finalization; `fuel`
bounds the resolution depth and `blockFuel` exceeds any depth an acyclic
block can need. -/
def evalParamExpr (ps : ParamBlock) : ℕ → ExpressionNode → Option ℚ
  | 0, _ => none
  | fuel+1, e =>
    match e with
    | .lit v => some v
    | .paramRef n =>
      match ps.find? (fun q => q.1 == n) with
      | some q => evalParamExpr ps fuel q.2
      | none => none
    | .obsRef _ => none
    | .callE _ _ => none
    | .unary .neg e1 =>
      match evalParamExpr ps fuel e1 with
      | some v => some (-v)
      | none => none
    | .unary .lnot e1 =>
      match evalParamExpr ps fuel e1 with
      | some v => some (if v = 0 then 1 else 0)
      | none => none
    | .binop op l r =>
      match evalParamExpr ps fuel l with
      | none => none
      | some a =>
        match evalParamExpr ps fuel r with
        | none => none
        | some b =>
          match applyBinOp op a b with
          | .ok v => some v
          | .error _ => none
    | .cond c t f =>
      match evalParamExpr ps fuel c with
      | none => none
      | some v => if v = 0 then evalParamExpr ps fuel f else evalParamExpr ps fuel t

/-- Evaluate every parameter of a block (against the whole block, so forward
references resolve). -/
def evalBlock (ps : ParamBlock) : List (String × ExpressionNode) → Except Diag (List (String × ℚ))
  | [] => .ok []
  | q :: rest =>
    match evalParamExpr ps (blockFuel ps) q.2 with
    | none => .error (.UnresolvedReference q.1)
    | some v =>
      match evalBlock ps rest with
      | .ok l => .ok ((q.1, v) :: l)
      | .error d => .error d

/-- Modelled from the spec: the finalization pass over a parameters block
(spec §4.1, §7, §9): first detect parameters that transitively reference
themselves (`CyclicParameterDependency`), then resolve every parameter value,
reporting a parameter that cannot be resolved as an unresolved reference. -/
def finalizeParameters (ps : ParamBlock) : Except Diag (List (String × ℚ)) :=
  match ps.find? (fun q => selfDependent ps q.1) with
  | some q => .error (.CyclicParameterDependency q.1)
  | none => evalBlock ps ps

/-- Modelled from the spec: the top-level declarations fed to the builder by
the driver, one per block entry, in file order (spec §2, §6). -/
inductive Decl where
  | paramD (name : String) (expr : ExpressionNode)
  | molTypeD (mt : MoleculeType)
  | compartmentD (name : String) (dim : ℕ) (size : ExpressionNode) (parent : Option String)
  | speciesD (pat : Pattern) (init : ExpressionNode)
  | obsD (name : String) (k : ObsKind) (pats : List Pattern)
  | functionD (name : String) (ps : List String) (body : ExpressionNode)
  | ruleD (label : Option String) (reactants products : List Pattern)
      (rates : List ExpressionNode) (modifiers : List String)
deriving Repr

/-- Modelled from the spec: the single owned builder context threaded through
the traversal (spec §9): symbol table plus the collected rules and seed
species. -/
structure BuilderCtx where
  table : SymbolTable
  rules : List ReactionRule
  speciesList : List (Pattern × ExpressionNode)
deriving Repr

/-- The fresh builder context a build starts from. -/
def initCtx : BuilderCtx := ⟨⟨[]⟩, [], []⟩

/-- Modelled from the spec: process one declaration against the current
context (spec §2, §4): register its symbol, validate its patterns, compile
its rule; a structural error is returned as a diagnostic without touching
the context. -/
def processDecl (ctx : BuilderCtx) (d : Decl) : Except Diag BuilderCtx :=
  match d with
  | .paramD n e =>
    match ctx.table.declare .parameterK n (.paramE e) with
    | .ok t => .ok { ctx with table := t }
    | .error dg => .error dg
  | .molTypeD mt =>
    match ctx.table.declare .moleculeTypeK mt.name (.molTypeE mt) with
    | .ok t => .ok { ctx with table := t }
    | .error dg => .error dg
  | .compartmentD n dim size parent =>
    match ctx.table.declare .compartmentK n (.compartmentE dim size parent) with
    | .ok t => .ok { ctx with table := t }
    | .error dg => .error dg
  | .speciesD pat init =>
    match buildPattern ctx.table pat with
    | .error dg => .error dg
    | .ok _ => .ok { ctx with speciesList := ctx.speciesList ++ [(pat, init)] }
  | .obsD n k pats =>
    match pats.forM (buildPattern ctx.table) with
    | .error dg => .error dg
    | .ok _ =>
      match ctx.table.declare .observableK n (.observableE k pats) with
      | .ok t => .ok { ctx with table := t }
      | .error dg => .error dg
  | .functionD n ps body =>
    match ctx.table.declare .functionK n (.functionE ps body) with
    | .ok t => .ok { ctx with table := t }
    | .error dg => .error dg
  | .ruleD label r p rates mods =>
    match (r ++ p).forM (buildPattern ctx.table) with
    | .error dg => .error dg
    | .ok _ =>
      match defineRule label r p rates mods with
      | .error dg => .error dg
      | .ok rs => .ok { ctx with rules := ctx.rules ++ rs }

/-- Modelled from the spec: the propagation step of the driver (spec §7): a
structural error aborts the current declaration only — the context is kept,
the diagnostic is appended, and the builder continues with the next
declaration. -/
def step (acc : BuilderCtx × List Diag) (d : Decl) : BuilderCtx × List Diag :=
  match processDecl acc.1 d with
  | .ok c => (c, acc.2)
  | .error dg => (acc.1, acc.2 ++ [dg])

/-- Modelled from the spec: phase 1 of the build (spec §9): walk the
declarations in file order, accumulating the context and every diagnostic in
one pass. -/
def phase1 (ds : List Decl) : BuilderCtx × List Diag :=
  ds.foldl step (initCtx, [])

/-- The parameters block recorded in a context, in insertion order. -/
def paramsOf (ctx : BuilderCtx) : ParamBlock :=
  ctx.table.entries.filterMap fun e =>
    match e with
    | (Kind.parameterK, n, Entity.paramE ex) => some (n, ex)
    | _ => none

/-- Modelled from the spec: the global-consistency diagnostics of the
finalization pass (spec §7): cyclic parameter dependencies and unresolved
forward references. -/
def finalizeCheck (ctx : BuilderCtx) : List Diag :=
  match finalizeParameters (paramsOf ctx) with
  | .ok _ => []
  | .error d => [d]

/-- Modelled from the spec: the finished `Model` aggregate (spec §3): it
exclusively owns every entity, keyed by name per entity kind, plus the
compiled rules and seed species. -/
structure Model where
  entities : List (Kind × String × Entity)
  rules : List ReactionRule
  speciesList : List (Pattern × ExpressionNode)
deriving Repr

/-- The immutable snapshot taken of a finished builder context. -/
def mkModel (ctx : BuilderCtx) : Model :=
  ⟨ctx.table.entries, ctx.rules, ctx.speciesList⟩

/-- Modelled from the spec: the whole build (spec §5, §7): phase 1 over every
declaration, then the finalization pass; only a finalization failure prevents
the Model from being returned, and then the full diagnostic list is the
result — a partial model is never exposed. -/
def buildModel (ds : List Decl) : Except (List Diag) (Model × List Diag) :=
  match finalizeCheck (phase1 ds).1 with
  | [] => .ok (mkModel (phase1 ds).1, (phase1 ds).2)
  | fs => .error ((phase1 ds).2 ++ fs)

/-- Modelled from the spec: the state a sequence of builds threads along —
the residual context left behind by the most recent build.  The spec (§9)
requires the builder context to be created fresh per build and discarded once
the immutable Model is produced, with no ambient global state read across
builds. -/
structure BuildSession where
  residual : BuilderCtx

/-- The session before any build has run. -/
def initialSession : BuildSession := ⟨initCtx⟩

/-- Modelled from the spec: run one build inside a session (spec §5, §9):
the builder context starts from `initCtx`, never from the residual context of
an earlier build, and the residue it leaves is the finished context. -/
def runBuild (ds : List Decl) (_s : BuildSession) :
    (Except (List Diag) (Model × List Diag)) × BuildSession :=
  ((buildModel ds), ⟨(phase1 ds).1⟩)

/-- The per-kind name-uniqueness invariant of the Model (spec §3): no two
entities of the same kind share a name; the same name may recur across
different kinds. -/
def kindNameUnique (entries : List (Kind × String × Entity)) : Prop :=
  List.Pairwise (fun a b => a.1 = b.1 → a.2.1 ≠ b.2.1) entries

section Listener

variable {σ : Type}

/-- The grammar rules of BNGParser, one per generated listener context (source:
src/parser/grammar/BNGParserListener.py). -/
inductive BNGRule where
  | Prog
  | Header_block
  | Version_def
  | Substance_def
  | Set_option
  | Set_model_name
  | Program_block
  | Parameters_block
  | Parameter_def
  | Param_name
  | Molecule_types_block
  | Molecule_type_def
  | Molecule_def
  | Molecule_attributes
  | Component_def_list
  | Component_def
  | Keyword_as_component_name
  | State_list
  | State_name
  | Seed_species_block
  | Seed_species_def
  | Species_def
  | Molecule_compartment
  | Molecule_pattern
  | Pattern_bond_wildcard
  | Molecule_tag
  | Component_pattern_list
  | Component_pattern
  | State_value
  | Bond_spec
  | Bond_id
  | Observables_block
  | Observable_def
  | Observable_type
  | Observable_pattern_list
  | Observable_pattern
  | Reaction_rules_block
  | Reaction_rule_def
  | Label_def
  | Reactant_patterns
  | Product_patterns
  | Reaction_sign
  | Rate_law
  | Rule_modifiers
  | Pattern_list
  | Functions_block
  | Function_def
  | Param_list
  | Compartments_block
  | Compartment_def
  | Energy_patterns_block
  | Energy_pattern_def
  | Population_maps_block
  | Population_map_def
  | Actions_block
  | Wrapped_actions_block
  | Begin_actions_block
  | Action_command
  | Generate_network_cmd
  | Simulate_cmd
  | Write_cmd
  | Set_cmd
  | Other_action_cmd
  | Action_args
  | Action_arg_list
  | Action_arg
  | Action_arg_value
  | Keyword_as_value
  | Nested_hash_list
  | Nested_hash_item
  | Arg_name
  | Expression_list
  | Expression
  | Conditional_expr
  | Or_expr
  | And_expr
  | Equality_expr
  | Relational_expr
  | Additive_expr
  | Multiplicative_expr
  | Power_expr
  | Unary_expr
  | Primary_expr
  | Function_call
  | Observable_ref
  | Literal
deriving DecidableEq, Repr

/-- The enter handlers of the generated BNGParserListener base class, one case
per enter method of the source; every one is a no-op (`pass`), returning the
ambient state unchanged. -/
def baseEnter (r : BNGRule) (s : σ) : σ :=
  match r with
  | .Prog => s
  | .Header_block => s
  | .Version_def => s
  | .Substance_def => s
  | .Set_option => s
  | .Set_model_name => s
  | .Program_block => s
  | .Parameters_block => s
  | .Parameter_def => s
  | .Param_name => s
  | .Molecule_types_block => s
  | .Molecule_type_def => s
  | .Molecule_def => s
  | .Molecule_attributes => s
  | .Component_def_list => s
  | .Component_def => s
  | .Keyword_as_component_name => s
  | .State_list => s
  | .State_name => s
  | .Seed_species_block => s
  | .Seed_species_def => s
  | .Species_def => s
  | .Molecule_compartment => s
  | .Molecule_pattern => s
  | .Pattern_bond_wildcard => s
  | .Molecule_tag => s
  | .Component_pattern_list => s
  | .Component_pattern => s
  | .State_value => s
  | .Bond_spec => s
  | .Bond_id => s
  | .Observables_block => s
  | .Observable_def => s
  | .Observable_type => s
  | .Observable_pattern_list => s
  | .Observable_pattern => s
  | .Reaction_rules_block => s
  | .Reaction_rule_def => s
  | .Label_def => s
  | .Reactant_patterns => s
  | .Product_patterns => s
  | .Reaction_sign => s
  | .Rate_law => s
  | .Rule_modifiers => s
  | .Pattern_list => s
  | .Functions_block => s
  | .Function_def => s
  | .Param_list => s
  | .Compartments_block => s
  | .Compartment_def => s
  | .Energy_patterns_block => s
  | .Energy_pattern_def => s
  | .Population_maps_block => s
  | .Population_map_def => s
  | .Actions_block => s
  | .Wrapped_actions_block => s
  | .Begin_actions_block => s
  | .Action_command => s
  | .Generate_network_cmd => s
  | .Simulate_cmd => s
  | .Write_cmd => s
  | .Set_cmd => s
  | .Other_action_cmd => s
  | .Action_args => s
  | .Action_arg_list => s
  | .Action_arg => s
  | .Action_arg_value => s
  | .Keyword_as_value => s
  | .Nested_hash_list => s
  | .Nested_hash_item => s
  | .Arg_name => s
  | .Expression_list => s
  | .Expression => s
  | .Conditional_expr => s
  | .Or_expr => s
  | .And_expr => s
  | .Equality_expr => s
  | .Relational_expr => s
  | .Additive_expr => s
  | .Multiplicative_expr => s
  | .Power_expr => s
  | .Unary_expr => s
  | .Primary_expr => s
  | .Function_call => s
  | .Observable_ref => s
  | .Literal => s

/-- The exit handlers of the generated BNGParserListener base class, one case
per exit method of the source; every one is a no-op (`pass`), returning the
ambient state unchanged. -/
def baseExit (r : BNGRule) (s : σ) : σ :=
  match r with
  | .Prog => s
  | .Header_block => s
  | .Version_def => s
  | .Substance_def => s
  | .Set_option => s
  | .Set_model_name => s
  | .Program_block => s
  | .Parameters_block => s
  | .Parameter_def => s
  | .Param_name => s
  | .Molecule_types_block => s
  | .Molecule_type_def => s
  | .Molecule_def => s
  | .Molecule_attributes => s
  | .Component_def_list => s
  | .Component_def => s
  | .Keyword_as_component_name => s
  | .State_list => s
  | .State_name => s
  | .Seed_species_block => s
  | .Seed_species_def => s
  | .Species_def => s
  | .Molecule_compartment => s
  | .Molecule_pattern => s
  | .Pattern_bond_wildcard => s
  | .Molecule_tag => s
  | .Component_pattern_list => s
  | .Component_pattern => s
  | .State_value => s
  | .Bond_spec => s
  | .Bond_id => s
  | .Observables_block => s
  | .Observable_def => s
  | .Observable_type => s
  | .Observable_pattern_list => s
  | .Observable_pattern => s
  | .Reaction_rules_block => s
  | .Reaction_rule_def => s
  | .Label_def => s
  | .Reactant_patterns => s
  | .Product_patterns => s
  | .Reaction_sign => s
  | .Rate_law => s
  | .Rule_modifiers => s
  | .Pattern_list => s
  | .Functions_block => s
  | .Function_def => s
  | .Param_list => s
  | .Compartments_block => s
  | .Compartment_def => s
  | .Energy_patterns_block => s
  | .Energy_pattern_def => s
  | .Population_maps_block => s
  | .Population_map_def => s
  | .Actions_block => s
  | .Wrapped_actions_block => s
  | .Begin_actions_block => s
  | .Action_command => s
  | .Generate_network_cmd => s
  | .Simulate_cmd => s
  | .Write_cmd => s
  | .Set_cmd => s
  | .Other_action_cmd => s
  | .Action_args => s
  | .Action_arg_list => s
  | .Action_arg => s
  | .Action_arg_value => s
  | .Keyword_as_value => s
  | .Nested_hash_list => s
  | .Nested_hash_item => s
  | .Arg_name => s
  | .Expression_list => s
  | .Expression => s
  | .Conditional_expr => s
  | .Or_expr => s
  | .And_expr => s
  | .Equality_expr => s
  | .Relational_expr => s
  | .Additive_expr => s
  | .Multiplicative_expr => s
  | .Power_expr => s
  | .Unary_expr => s
  | .Primary_expr => s
  | .Function_call => s
  | .Observable_ref => s
  | .Literal => s

/-- A parse-tree listener over an external state type: one state transformer
per rule for enter, one per rule for exit (the ANTLR ParseTreeListener
shape). -/
structure TreeListener (σ : Type) where
  enterRule : BNGRule → σ → σ
  exitRule : BNGRule → σ → σ

/-- The unextended generated base listener (source:
src/parser/grammar/BNGParserListener.py): every enter and exit handler is a
no-op. -/
def BNGParserListener (σ : Type) : TreeListener σ :=
  ⟨fun r s => baseEnter r s, fun r s => baseExit r s⟩

/-- A concrete syntax tree as handed to a listener walk: a rule node with an
ordered child list, or a terminal token. -/
inductive ParseTree where
  | ruleNode (r : BNGRule) (children : List ParseTree)
  | terminal (tok : String)
deriving Repr

mutual

/-- The standard listener walk: fire the enter handler, walk the children in
order, fire the exit handler; a terminal fires no rule handler. -/
def walk (L : TreeListener σ) : ParseTree → σ → σ
  | .terminal _, s => s
  | .ruleNode r cs, s => L.exitRule r (walkChildren L cs (L.enterRule r s))

/-- Walk a child list left to right, threading the state. -/
def walkChildren (L : TreeListener σ) : List ParseTree → σ → σ
  | [], s => s
  | c :: cs, s => walkChildren L cs (walk L c s)

end

end Listener

end BNG

namespace BNG

/-! Concrete inputs used to exercise the definitions, taken from the worked
examples of the spec (§8). -/

/-- The pattern with bond sites (0,0)->1 and (1,0)->1 (spec §8): two
molecules joined by one explicit bond. -/
def demoBondPat : Pattern :=
  ⟨[⟨"A", [⟨"b", .unset, .bondId 1⟩], none⟩,
    ⟨"B", [⟨"a", .unset, .bondId 1⟩], none⟩], false, none⟩

/-- The pattern with only site (0,0)->1 and no partner (spec §8), not marked
as a fragment. -/
def demoDanglingPat : Pattern :=
  ⟨[⟨"A", [⟨"b", .unset, .bondId 1⟩], none⟩], false, none⟩

/-- The same single-site pattern explicitly marked as a fragment pattern. -/
def demoFragmentPat : Pattern :=
  ⟨[⟨"A", [⟨"b", .unset, .bondId 1⟩], none⟩], true, none⟩

/-- A pattern bearing bond id 1 at three sites (spec §8). -/
def demoReusedPat : Pattern :=
  ⟨[⟨"A", [⟨"b", .unset, .bondId 1⟩], none⟩,
    ⟨"B", [⟨"a", .unset, .bondId 1⟩, ⟨"c", .unset, .bondId 1⟩], none⟩], false, none⟩

/-- A rule whose reactant pattern and product pattern each use the local bond
id 1: bond ids are not unique across an entire rule. -/
def demoCrossRule : ReactionRule :=
  ⟨none, [demoBondPat], [demoBondPat], .lit 1, []⟩

/-- Token sequence of the expression 2 + 3 * 4 (spec §8). -/
def toksPlusTimes : List Tok := [.num 2, .plus, .num 3, .star, .num 4]

/-- Token sequence of the expression 2 ^ 3 ^ 2 (spec §8). -/
def toksPowPow : List Tok := [.num 2, .caret, .num 3, .caret, .num 2]

/-- The expression tree of 2 + (3 * 4): multiplicative binds tighter than
additive. -/
def plusTimesTree : ExpressionNode :=
  .binop .add (.lit 2) (.binop .mul (.lit 3) (.lit 4))

/-- The right-nested power tree 2 ^ (3 ^ 2). -/
def powRightTree : ExpressionNode :=
  .binop .pow (.lit 2) (.binop .pow (.lit 3) (.lit 2))

/-- The left-nested power tree (2 ^ 3) ^ 2, which the compiler must NOT
produce for 2 ^ 3 ^ 2. -/
def powLeftTree : ExpressionNode :=
  .binop .pow (.binop .pow (.lit 2) (.lit 3)) (.lit 2)

/-- The molecule type A(b~0~1) of the spec's state-validation example
(spec §8). -/
def demoMoleculeTypeA : MoleculeType := ⟨"A", [⟨"b", ["0", "1"]⟩]⟩

/-- A symbol table declaring only the molecule type A(b~0~1). -/
def demoTbl : SymbolTable := ⟨[(.moleculeTypeK, "A", .molTypeE demoMoleculeTypeA)]⟩

/-- The component pattern b~2, whose literal state 2 is not among the allowed
states of component b. -/
def demoCompBad : ComponentPattern := ⟨"b", .literal "2", .unbound⟩

/-- The pattern A(b~2) of the spec's failing example (spec §8). -/
def demoBadPat : Pattern := ⟨[⟨"A", [demoCompBad], none⟩], false, none⟩

/-- The parameters block where k2 = k1 * 2 references k1 declared later
(spec §8). -/
def demoForwardBlock : ParamBlock :=
  [("k2", .binop .mul (.paramRef "k1") (.lit 2)), ("k1", .lit 3)]

/-- The parameters block where k1 = k1 + 1 references itself (spec §8). -/
def demoSelfBlock : ParamBlock :=
  [("k1", .binop .add (.paramRef "k1") (.lit 1))]

/-- A seed-species declaration whose pattern references the undeclared
molecule type X: a structural error for the builder. -/
def demoUnknownSpecies : Decl :=
  .speciesD ⟨[⟨"X", [], none⟩], false, none⟩ (.lit 100)

end BNG

namespace BNG

/-! Helper lemmas shared by several results. -/

/-- A monadic for-loop in the Except monad succeeds exactly when every
element's check succeeds. -/
theorem forM_ok_iff {α E : Type} (f : α → Except E Unit) (l : List α) :
    l.forM f = .ok () ↔ ∀ a ∈ l, f a = .ok () := by
  induction l with
  | nil =>
    constructor
    · intro _ a ha; cases ha
    · intro _; rfl
  | cons x xs ih =>
    have hstep : (x :: xs).forM f = f x >>= fun _ => xs.forM f := rfl
    cases hx : f x with
    | ok u =>
      cases u
      have hbind : (x :: xs).forM f = xs.forM f := by rw [hstep, hx]; rfl
      rw [hbind, ih]
      constructor
      · intro h a ha
        cases ha with
        | head => exact hx
        | tail _ h' => exact h a h'
      · intro h a ha
        exact h a (List.mem_cons_of_mem _ ha)
    | error e =>
      have herr : (x :: xs).forM f = .error e := by rw [hstep, hx]; rfl
      rw [herr]
      constructor
      · intro h; cases h
      · intro h
        have hx' := h x (List.mem_cons_self x xs)
        rw [hx] at hx'
        cases hx'

/-- If some element of the list fails with error `e` and every element either
succeeds or fails with that same `e`, the for-loop fails with `e`. -/
theorem forM_error_first {α E : Type} (f : α → Except E Unit) (l : List α) (a : α) (e : E)
    (hmem : a ∈ l) (he : f a = .error e)
    (hall : ∀ b ∈ l, f b = .ok () ∨ f b = .error e) :
    l.forM f = .error e := by
  induction l with
  | nil => cases hmem
  | cons x xs ih =>
    have hstep : (x :: xs).forM f = f x >>= fun _ => xs.forM f := rfl
    cases hx : f x with
    | error e' =>
      have he' : e' = e := by
        rcases hall x (List.mem_cons_self x xs) with h | h
        · rw [hx] at h; cases h
        · rw [hx] at h; exact (Except.error.inj h)
      subst he'
      rw [hstep, hx]
      rfl
    | ok u =>
      cases u
      have hbind : (x :: xs).forM f = xs.forM f := by rw [hstep, hx]; rfl
      rw [hbind]
      have hax : a ≠ x := by
        intro h; subst h; rw [he] at hx; cases hx
      have hmem' : a ∈ xs := by
        cases hmem with
        | head => exact absurd rfl hax
        | tail _ h => exact h
      exact ih hmem' (fun b hb => hall b (List.mem_cons_of_mem _ hb))

/-- Unfolding of the per-id bond check. -/
theorem checkBondId_eq (p : Pattern) (n : ℕ) :
    checkBondId p n =
      (if (sitesOf p n).length = 2 then .ok ()
       else if (sitesOf p n).length = 1 then
         (if p.isFragment then .ok () else .error (.DanglingBond n))
       else .error (.BondIdReused n)) := rfl

/-- For a non-fragment pattern the per-id check succeeds exactly at two
sites. -/
theorem checkBondId_ok_iff_of_not_fragment (p : Pattern) (n : ℕ) (hf : p.isFragment = false) :
    checkBondId p n = .ok () ↔ (sitesOf p n).length = 2 := by
  rw [checkBondId_eq, hf]
  split_ifs with h1 h2 <;> simp_all

/-- For a fragment pattern the per-id check succeeds at two sites or at one
(dangling) site. -/
theorem checkBondId_ok_iff_of_fragment (p : Pattern) (n : ℕ) (hf : p.isFragment = true) :
    checkBondId p n = .ok () ↔ (sitesOf p n).length = 2 ∨ (sitesOf p n).length = 1 := by
  rw [checkBondId_eq, hf]
  split_ifs with h1 h2 <;> simp_all

/-- C1: validateBonds succeeds iff every explicit numeric bond id occurring
in the pattern maps to exactly two (molecule-index, component-index) sites;
a bond id with exactly one site yields DanglingBond unless the pattern is
explicitly marked as a fragment pattern (where one site is also accepted),
and a bond id with three or more sites yields BondIdReused; the check is
local to one pattern, so a rule-level check is the conjunction of the
independent per-pattern checks and a rule may reuse a bond id across two of
its patterns. -/
theorem validateBonds_c1 :
    (∀ p : Pattern, p.isFragment = false →
        (validateBonds p = .ok () ↔ ∀ n ∈ bondIds p, (sitesOf p n).length = 2)) ∧
    (∀ p : Pattern, p.isFragment = true →
        (validateBonds p = .ok () ↔
          ∀ n ∈ bondIds p, (sitesOf p n).length = 2 ∨ (sitesOf p n).length = 1)) ∧
    (∀ (p : Pattern) (n : ℕ), n ∈ bondIds p → p.isFragment = false →
        (sitesOf p n).length = 1 →
        (∀ m ∈ bondIds p, m ≠ n → (sitesOf p m).length = 2) →
        validateBonds p = .error (.DanglingBond n)) ∧
    (∀ (p : Pattern) (n : ℕ), n ∈ bondIds p →
        3 ≤ (sitesOf p n).length →
        (∀ m ∈ bondIds p, m ≠ n → (sitesOf p m).length = 2) →
        validateBonds p = .error (.BondIdReused n)) ∧
    (∀ r : ReactionRule,
        validateRuleBonds r = .ok () ↔
          ∀ p ∈ r.reactants ++ r.products, validateBonds p = .ok ()) ∧
    validateRuleBonds demoCrossRule = .ok () := by
  refine ⟨?_, ?_, ?_, ?_, ?_, ?_⟩
  · intro p hf
    rw [validateBonds, forM_ok_iff]
    constructor
    · intro h n hn
      exact (checkBondId_ok_iff_of_not_fragment p n hf).mp (h n hn)
    · intro h n hn
      exact (checkBondId_ok_iff_of_not_fragment p n hf).mpr (h n hn)
  · intro p hf
    rw [validateBonds, forM_ok_iff]
    constructor
    · intro h n hn
      exact (checkBondId_ok_iff_of_fragment p n hf).mp (h n hn)
    · intro h n hn
      exact (checkBondId_ok_iff_of_fragment p n hf).mpr (h n hn)
  · intro p n hn hf h1 hrest
    rw [validateBonds]
    apply forM_error_first (checkBondId p) (bondIds p) n _ hn
    · rw [checkBondId_eq, hf, h1]
      norm_num
    · intro m hm
      by_cases hmn : m = n
      · subst hmn
        right
        rw [checkBondId_eq, hf, h1]
        norm_num
      · left
        exact (checkBondId_ok_iff_of_not_fragment p m hf).mpr (hrest m hm hmn)
  · intro p n hn h3 hrest
    rw [validateBonds]
    apply forM_error_first (checkBondId p) (bondIds p) n _ hn
    · rw [checkBondId_eq]
      have hne2 : (sitesOf p n).length ≠ 2 := by omega
      have hne1 : (sitesOf p n).length ≠ 1 := by omega
      simp [hne2, hne1]
    · intro m hm
      by_cases hmn : m = n
      · subst hmn
        right
        rw [checkBondId_eq]
        have hne2 : (sitesOf p m).length ≠ 2 := by omega
        have hne1 : (sitesOf p m).length ≠ 1 := by omega
        simp [hne2, hne1]
      · left
        rw [checkBondId_eq]
        simp [hrest m hm hmn]
  · intro r
    exact forM_ok_iff validateBonds (r.reactants ++ r.products)
  · rfl

/-- Witness for C1 at the spec's own examples: the two-site pattern
validates, while the conjuncts with hypotheses are exercised at the dangling
and the reused pattern. -/
theorem validateBonds_c1_witness :
    validateBonds demoBondPat = .ok () ∧
    validateBonds demoDanglingPat = .error (.DanglingBond 1) ∧
    validateBonds demoFragmentPat = .ok () ∧
    validateBonds demoReusedPat = .error (.BondIdReused 1) :=
  ⟨(validateBonds_c1.1 demoBondPat rfl).mpr (by decide),
   validateBonds_c1.2.2.1 demoDanglingPat 1 (by decide) rfl (by decide)
     (by decide),
   (validateBonds_c1.2.1 demoFragmentPat rfl).mpr (by decide),
   validateBonds_c1.2.2.2.1 demoReusedPat 1 (by decide) (by decide)
     (by decide)⟩

end BNG

namespace BNG

/-- C2: expression compilation respects the declared precedence and
associativity: compiling 2 + 3 * 4 yields the tree 2 + (3 * 4), which
evaluates to 14, and compiling 2 ^ 3 ^ 2 yields the right-nested tree
2 ^ (3 ^ 2), which evaluates to 512 — not 64, the value of the left-nested
tree (2 ^ 3) ^ 2. -/
theorem expression_precedence_c2 :
    (compile toksPlusTimes = .ok plusTimesTree ∧
      evaluate plusTimesTree emptyEnv = .ok 14) ∧
    (compile toksPowPow = .ok powRightTree ∧
      evaluate powRightTree emptyEnv = .ok 512) ∧
    evaluate powLeftTree emptyEnv = .ok 64 ∧
    (512 : ℚ) ≠ 64 := by
  refine ⟨⟨rfl, ?_⟩, ⟨rfl, ?_⟩, ?_, by norm_num⟩
  · simp [evaluate, applyBinOp, emptyEnv]
    norm_num
  · simp [evaluate, applyBinOp, ratPow, emptyEnv]
    norm_num
  · simp [evaluate, applyBinOp, ratPow, emptyEnv, powLeftTree]
    norm_num

/-- C3: defineRule with exactly one rate expression produces a single
irreversible directional rule; with two rate expressions it produces two
directional rules whose reactant/product pattern pair is the same pair
reversed, the first rate attached to the forward direction and the second to
the reverse direction. -/
theorem defineRule_c3 :
    (∀ (label : Option String) (r p : List Pattern) (k : ExpressionNode)
        (mods : List String),
        defineRule label r p [k] mods = .ok [⟨label, r, p, k, mods⟩]) ∧
    (∀ (label : Option String) (r p : List Pattern) (k1 k2 : ExpressionNode)
        (mods : List String),
        defineRule label r p [k1, k2] mods =
          .ok [⟨label, r, p, k1, mods⟩, ⟨label, p, r, k2, mods⟩]) :=
  ⟨fun _ _ _ _ _ => rfl, fun _ _ _ _ _ _ => rfl⟩

/-- A symbol is resolvable exactly when some entry matches its kind and
name. -/
theorem resolve_ok_iff (tbl : SymbolTable) (k : Kind) (n : String) :
    (∃ e, tbl.resolve k n = .ok e) ↔
      tbl.entries.any (fun e => decide (e.1 = k ∧ e.2.1 = n)) = true := by
  constructor
  · rintro ⟨e, he⟩
    unfold SymbolTable.resolve at he
    cases hf : tbl.entries.find? (fun x => decide (x.1 = k ∧ x.2.1 = n)) with
    | none => rw [hf] at he; cases he
    | some x =>
      have hmem := List.mem_of_find?_eq_some hf
      have hp := List.find?_some hf
      exact List.any_eq_true.mpr ⟨x, hmem, hp⟩
  · intro h
    have hex : ∃ x ∈ tbl.entries, (fun e => decide (e.1 = k ∧ e.2.1 = n)) x = true :=
      List.any_eq_true.mp h
    have hsome : (tbl.entries.find? (fun e => decide (e.1 = k ∧ e.2.1 = n))).isSome :=
      List.find?_isSome.mpr hex
    obtain ⟨x, hx⟩ := Option.isSome_iff_exists.mp hsome
    refine ⟨x.2.2, ?_⟩
    unfold SymbolTable.resolve
    rw [hx]

/-- C4: declare(kind, name, entity) fails with DuplicateSymbol exactly when
the name is already declared for that kind, and on such a failure the
builder keeps its context, so the first declaration of the name still
resolves to its original entity afterwards. -/
theorem declare_duplicate_c4 :
    (∀ (tbl : SymbolTable) (k : Kind) (n : String) (e ent' : Entity),
        tbl.resolve k n = .ok e →
        tbl.declare k n ent' = .error (.DuplicateSymbol k n)) ∧
    (∀ (tbl : SymbolTable) (k : Kind) (n : String) (ent' : Entity) (dg : Diag),
        tbl.declare k n ent' = .error dg →
        dg = .DuplicateSymbol k n ∧ ∃ e, tbl.resolve k n = .ok e) ∧
    (∀ (ctx : BuilderCtx) (diags : List Diag) (n : String) (e : Entity)
        (expr : ExpressionNode),
        ctx.table.resolve .parameterK n = .ok e →
        step (ctx, diags) (.paramD n expr) =
          (ctx, diags ++ [.DuplicateSymbol .parameterK n]) ∧
        (step (ctx, diags) (.paramD n expr)).1.table.resolve .parameterK n = .ok e) := by
  refine ⟨?_, ?_, ?_⟩
  · intro tbl k n e ent' he
    have hany := (resolve_ok_iff tbl k n).mp ⟨e, he⟩
    unfold SymbolTable.declare
    rw [if_pos hany]
  · intro tbl k n ent' dg hd
    unfold SymbolTable.declare at hd
    by_cases hany : tbl.entries.any (fun e => decide (e.1 = k ∧ e.2.1 = n)) = true
    · rw [if_pos hany] at hd
      refine ⟨(Except.error.inj hd).symm, (resolve_ok_iff tbl k n).mpr hany⟩
    · rw [if_neg hany] at hd
      cases hd
  · intro ctx diags n e expr he
    have hdecl : ctx.table.declare .parameterK n (.paramE expr) =
        .error (.DuplicateSymbol .parameterK n) := by
      have hany := (resolve_ok_iff ctx.table .parameterK n).mp ⟨e, he⟩
      unfold SymbolTable.declare
      rw [if_pos hany]
    have hstep : step (ctx, diags) (.paramD n expr) =
        (ctx, diags ++ [.DuplicateSymbol .parameterK n]) := by
      simp only [step, processDecl, hdecl]
    exact ⟨hstep, by rw [hstep]; exact he⟩

/-- Witness for C4: a table declaring the molecule type A rejects a second
declaration of A for the same kind and still resolves A to the original
entity. -/
theorem declare_duplicate_c4_witness :
    demoTbl.declare .moleculeTypeK "A" (.molTypeE ⟨"A", []⟩) =
      .error (.DuplicateSymbol .moleculeTypeK "A") ∧
    demoTbl.resolve .moleculeTypeK "A" = .ok (.molTypeE demoMoleculeTypeA) :=
  ⟨declare_duplicate_c4.1 demoTbl .moleculeTypeK "A" (.molTypeE demoMoleculeTypeA)
      (.molTypeE ⟨"A", []⟩) rfl,
   rfl⟩

end BNG

namespace BNG

/-- C5: a parameter whose expression references a parameter declared later in
the same block resolves successfully at finalization (k2 = k1 * 2 with k1 = 3
declared after it yields k2 = 6), while a parameter whose expression
transitively references itself makes finalization fail with
CyclicParameterDependency. -/
theorem finalize_params_c5 :
    finalizeParameters demoForwardBlock = .ok [("k2", 6), ("k1", 3)] ∧
    finalizeParameters demoSelfBlock = .error (.CyclicParameterDependency "k1") ∧
    (∀ (ps : ParamBlock) (q : String × ExpressionNode), q ∈ ps →
        selfDependent ps q.1 = true →
        ∃ m, finalizeParameters ps = .error (.CyclicParameterDependency m)) := by
  refine ⟨?_, rfl, ?_⟩
  · rw [show finalizeParameters demoForwardBlock =
        .ok [("k2", (3 : ℚ) * 2), ("k1", (3 : ℚ))] from rfl]
    norm_num
  · intro ps q hq hself
    have hex : ∃ x ∈ ps, (fun r => selfDependent ps r.1) x = true := ⟨q, hq, hself⟩
    have hsome : (ps.find? (fun r => selfDependent ps r.1)).isSome :=
      List.find?_isSome.mpr hex
    obtain ⟨x, hx⟩ := Option.isSome_iff_exists.mp hsome
    refine ⟨x.1, ?_⟩
    unfold finalizeParameters
    rw [hx]

/-- Witness for C5: the self-referential block k1 = k1 + 1 is rejected with a
cyclic-parameter-dependency diagnostic. -/
theorem finalize_params_c5_witness :
    ∃ m, finalizeParameters demoSelfBlock = .error (.CyclicParameterDependency m) :=
  finalize_params_c5.2.2 demoSelfBlock ("k1", .binop .add (.paramRef "k1") (.lit 1))
    (List.Mem.head _) rfl

/-- C6: for a component pattern carrying a literal state on a component that
exists on the resolved molecule type, the check fails with InvalidState
exactly when that state is not in the component's declared allowed-state set;
the wildcard state is always accepted, and the check never inspects the bond
marker, so the wildcard bond is accepted without further resolution; the
spec's example A(b~0~1) with pattern A(b~2) fails. -/
theorem state_validation_c6 :
    (∀ (mt : MoleculeType) (cp : ComponentPattern) (c : ComponentSpec) (s : String),
        findComponent mt cp.name = some c → cp.state = .literal s →
        (checkComponentPattern mt cp = .error (.InvalidState mt.name cp.name s) ↔
          s ∉ c.states)) ∧
    (∀ (mt : MoleculeType) (cp : ComponentPattern) (c : ComponentSpec),
        findComponent mt cp.name = some c → cp.state = .wildcard →
        checkComponentPattern mt cp = .ok ()) ∧
    (∀ (mt : MoleculeType) (cp : ComponentPattern) (b : BondMarker),
        checkComponentPattern mt { cp with bond := b } = checkComponentPattern mt cp) ∧
    buildPattern demoTbl demoBadPat = .error (.InvalidState "A" "b" "2") := by
  refine ⟨?_, ?_, ?_, rfl⟩
  · intro mt cp c s hc hs
    simp only [checkComponentPattern, hc, hs]
    by_cases hmem : s ∈ c.states
    · simp [hmem]
    · simp [hmem]
  · intro mt cp c hc hs
    simp only [checkComponentPattern, hc, hs]
  · intro mt cp b
    cases cp
    rfl

/-- Witness for C6: the literal-state conjunct at the spec's example — state
2 is not among the allowed states 0, 1 of component b on A. -/
theorem state_validation_c6_witness :
    checkComponentPattern demoMoleculeTypeA demoCompBad =
      .error (.InvalidState "A" "b" "2") :=
  (state_validation_c6.1 demoMoleculeTypeA demoCompBad ⟨"b", ["0", "1"]⟩ "2"
      rfl rfl).mpr (by decide)

end BNG

namespace BNG

/-- C7: a structural error aborts only the declaration it occurs in — the
step keeps the context, appends the diagnostic, and the fold continues with
the remaining declarations — while the whole build returns a Model exactly
when the finalization check is clean; a finalization failure yields the full
diagnostic list and no Model, so consumers never receive a partial model. -/
theorem diagnostics_policy_c7 :
    (∀ (ctx : BuilderCtx) (diags : List Diag) (d : Decl) (dg : Diag),
        processDecl ctx d = .error dg → step (ctx, diags) d = (ctx, diags ++ [dg])) ∧
    (∀ (acc : BuilderCtx × List Diag) (ds1 ds2 : List Decl),
        List.foldl step acc (ds1 ++ ds2) = List.foldl step (List.foldl step acc ds1) ds2) ∧
    (∀ ds : List Decl, finalizeCheck (phase1 ds).1 = [] →
        buildModel ds = .ok (mkModel (phase1 ds).1, (phase1 ds).2)) ∧
    (∀ ds : List Decl, finalizeCheck (phase1 ds).1 ≠ [] →
        buildModel ds = .error ((phase1 ds).2 ++ finalizeCheck (phase1 ds).1)) ∧
    (∀ (ds : List Decl) (m : Model) (diags : List Diag),
        buildModel ds = .ok (m, diags) → finalizeCheck (phase1 ds).1 = []) := by
  have hok : ∀ ds : List Decl, finalizeCheck (phase1 ds).1 = [] →
      buildModel ds = .ok (mkModel (phase1 ds).1, (phase1 ds).2) := by
    intro ds h
    unfold buildModel
    rw [h]
  have herr : ∀ ds : List Decl, finalizeCheck (phase1 ds).1 ≠ [] →
      buildModel ds = .error ((phase1 ds).2 ++ finalizeCheck (phase1 ds).1) := by
    intro ds h
    unfold buildModel
    cases hfc : finalizeCheck (phase1 ds).1 with
    | nil => exact absurd hfc h
    | cons x xs => rfl
  refine ⟨?_, ?_, hok, herr, ?_⟩
  · intro ctx diags d dg h
    simp only [step, h]
  · intro acc ds1 ds2
    exact List.foldl_append step acc ds1 ds2
  · intro ds m diags h
    cases hfc : finalizeCheck (phase1 ds).1 with
    | nil => rfl
    | cons x xs =>
      rw [herr ds (by rw [hfc]; exact List.cons_ne_nil x xs)] at h
      cases h

/-- Witness for C7: processing a species declaration that references the
undeclared molecule type X keeps the fresh context and records exactly that
diagnostic. -/
theorem diagnostics_policy_c7_witness :
    step (initCtx, []) demoUnknownSpecies =
      (initCtx, [] ++ [.UnknownMoleculeType "X"]) :=
  diagnostics_policy_c7.1 initCtx [] demoUnknownSpecies (.UnknownMoleculeType "X") rfl

/-- C8: building is deterministic and carries no hidden state across builds:
a build's result does not depend on the session left behind by earlier
builds, and rebuilding from the same declarations immediately after a build
returns the identical Model-and-diagnostics result. -/
theorem build_deterministic_c8 :
    ∀ (ds : List Decl) (s1 s2 : BuildSession),
      (runBuild ds s1).1 = (runBuild ds s2).1 ∧
      (runBuild ds ((runBuild ds s1).2)).1 = (runBuild ds s1).1 :=
  fun _ _ _ => ⟨rfl, rfl⟩

/-- Appending a fresh (kind, name) entry keeps per-kind name uniqueness. -/
theorem declare_preserves_unique (tbl tbl' : SymbolTable) (k : Kind) (n : String)
    (ent : Entity) (h : kindNameUnique tbl.entries)
    (hd : tbl.declare k n ent = .ok tbl') : kindNameUnique tbl'.entries := by
  unfold SymbolTable.declare at hd
  by_cases hany : tbl.entries.any (fun e => decide (e.1 = k ∧ e.2.1 = n)) = true
  · rw [if_pos hany] at hd
    cases hd
  · rw [if_neg hany] at hd
    have htbl' : tbl' = ⟨tbl.entries ++ [(k, n, ent)]⟩ := (Except.ok.inj hd).symm
    subst htbl'
    unfold kindNameUnique
    rw [List.pairwise_append]
    refine ⟨h, List.pairwise_singleton _ _, ?_⟩
    intro a ha b hb
    have hbeq : b = (k, n, ent) := List.mem_singleton.mp hb
    subst hbeq
    intro hk hn
    apply hany
    apply List.any_eq_true.mpr
    exact ⟨a, ha, by simp [hk, hn]⟩

/-- processDecl preserves per-kind name uniqueness of the symbol table. -/
theorem processDecl_preserves_unique (ctx ctx' : BuilderCtx) (d : Decl)
    (h : kindNameUnique ctx.table.entries) (hp : processDecl ctx d = .ok ctx') :
    kindNameUnique ctx'.table.entries := by
  cases d with
  | paramD n e =>
    simp only [processDecl] at hp
    cases hd : ctx.table.declare .parameterK n (.paramE e) with
    | ok t =>
      rw [hd] at hp
      have : ctx' = { ctx with table := t } := (Except.ok.inj hp).symm
      subst this
      exact declare_preserves_unique ctx.table t _ _ _ h hd
    | error dg => rw [hd] at hp; cases hp
  | molTypeD mt =>
    simp only [processDecl] at hp
    cases hd : ctx.table.declare .moleculeTypeK mt.name (.molTypeE mt) with
    | ok t =>
      rw [hd] at hp
      have : ctx' = { ctx with table := t } := (Except.ok.inj hp).symm
      subst this
      exact declare_preserves_unique ctx.table t _ _ _ h hd
    | error dg => rw [hd] at hp; cases hp
  | compartmentD n dim size parent =>
    simp only [processDecl] at hp
    cases hd : ctx.table.declare .compartmentK n (.compartmentE dim size parent) with
    | ok t =>
      rw [hd] at hp
      have : ctx' = { ctx with table := t } := (Except.ok.inj hp).symm
      subst this
      exact declare_preserves_unique ctx.table t _ _ _ h hd
    | error dg => rw [hd] at hp; cases hp
  | speciesD pat init =>
    simp only [processDecl] at hp
    cases hb : buildPattern ctx.table pat with
    | ok u =>
      rw [hb] at hp
      have : ctx' = { ctx with speciesList := ctx.speciesList ++ [(pat, init)] } :=
        (Except.ok.inj hp).symm
      subst this
      exact h
    | error dg => rw [hb] at hp; cases hp
  | obsD n k pats =>
    simp only [processDecl] at hp
    cases hb : pats.forM (buildPattern ctx.table) with
    | ok u =>
      rw [hb] at hp
      cases hd : ctx.table.declare .observableK n (.observableE k pats) with
      | ok t =>
        rw [hd] at hp
        have : ctx' = { ctx with table := t } := (Except.ok.inj hp).symm
        subst this
        exact declare_preserves_unique ctx.table t _ _ _ h hd
      | error dg => rw [hd] at hp; cases hp
    | error dg => rw [hb] at hp; cases hp
  | functionD n ps body =>
    simp only [processDecl] at hp
    cases hd : ctx.table.declare .functionK n (.functionE ps body) with
    | ok t =>
      rw [hd] at hp
      have : ctx' = { ctx with table := t } := (Except.ok.inj hp).symm
      subst this
      exact declare_preserves_unique ctx.table t _ _ _ h hd
    | error dg => rw [hd] at hp; cases hp
  | ruleD label r p rates mods =>
    simp only [processDecl] at hp
    cases hb : (r ++ p).forM (buildPattern ctx.table) with
    | ok u =>
      rw [hb] at hp
      cases hdr : defineRule label r p rates mods with
      | ok rs =>
        rw [hdr] at hp
        have : ctx' = { ctx with rules := ctx.rules ++ rs } := (Except.ok.inj hp).symm
        subst this
        exact h
      | error dg => rw [hdr] at hp; cases hp
    | error dg => rw [hb] at hp; cases hp

/-- The fold of the whole phase 1 preserves per-kind name uniqueness. -/
theorem phase1_preserves_unique (ds : List Decl) (acc : BuilderCtx × List Diag)
    (h : kindNameUnique acc.1.table.entries) :
    kindNameUnique (List.foldl step acc ds).1.table.entries := by
  induction ds generalizing acc with
  | nil => exact h
  | cons d ds ih =>
    apply ih
    unfold step
    cases hp : processDecl acc.1 d with
    | ok c => exact processDecl_preserves_unique acc.1 c d h hp
    | error dg => exact h

/-- C9: per-kind name uniqueness is an invariant of the builder: it holds of
the empty context, every successful declaration-processing step preserves it,
the error-tolerant step preserves it, and every Model the builder returns
satisfies it. -/
theorem kind_name_unique_c9 :
    kindNameUnique initCtx.table.entries ∧
    (∀ (ctx ctx' : BuilderCtx) (d : Decl),
        kindNameUnique ctx.table.entries → processDecl ctx d = .ok ctx' →
        kindNameUnique ctx'.table.entries) ∧
    (∀ (acc : BuilderCtx × List Diag) (d : Decl),
        kindNameUnique acc.1.table.entries →
        kindNameUnique ((step acc d).1.table.entries)) ∧
    (∀ (ds : List Decl) (m : Model) (diags : List Diag),
        buildModel ds = .ok (m, diags) → kindNameUnique m.entities) := by
  refine ⟨List.Pairwise.nil, processDecl_preserves_unique, ?_, ?_⟩
  · intro acc d h
    unfold step
    cases hp : processDecl acc.1 d with
    | ok c => exact processDecl_preserves_unique acc.1 c d h hp
    | error dg => exact h
  · intro ds m diags h
    unfold buildModel at h
    cases hfc : finalizeCheck (phase1 ds).1 with
    | cons x xs => rw [hfc] at h; cases h
    | nil =>
      rw [hfc] at h
      have hm : m = mkModel (phase1 ds).1 := by
        have := Except.ok.inj h
        exact (congrArg Prod.fst this).symm
      subst hm
      exact phase1_preserves_unique ds (initCtx, []) List.Pairwise.nil

/-- Witness for C9: the Model built from an empty declaration list satisfies
the invariant. -/
theorem kind_name_unique_c9_witness : kindNameUnique (mkModel initCtx).entities :=
  kind_name_unique_c9.2.2.2 [] (mkModel initCtx) [] rfl

end BNG

namespace BNG

/-- Every enter handler of the base listener is a no-op. -/
theorem baseEnter_eq {σ : Type} (r : BNGRule) (s : σ) : baseEnter r s = s := by
  cases r <;> rfl

/-- Every exit handler of the base listener is a no-op. -/
theorem baseExit_eq {σ : Type} (r : BNGRule) (s : σ) : baseExit r s = s := by
  cases r <;> rfl

/-- Walking a child list with a listener whose walk leaves each child's state
unchanged leaves the state unchanged. -/
theorem walkChildren_noop {σ : Type} (L : TreeListener σ) (cs : List ParseTree)
    (h : ∀ c ∈ cs, ∀ s : σ, walk L c s = s) : ∀ s : σ, walkChildren L cs s = s := by
  induction cs with
  | nil => intro s; rfl
  | cons c cs ih =>
    intro s
    have hstep : walkChildren L (c :: cs) s = walkChildren L cs (walk L c s) := rfl
    rw [hstep, h c (List.mem_cons_self c cs) s]
    exact ih (fun c' hc' => h c' (List.mem_cons_of_mem _ hc')) s

/-- Walking any parse tree of bounded size with the base listener leaves the
state unchanged. -/
theorem walk_noop_aux {σ : Type} (n : ℕ) :
    ∀ t : ParseTree, sizeOf t ≤ n → ∀ s : σ, walk (BNGParserListener σ) t s = s := by
  induction n with
  | zero =>
    intro t ht
    exfalso
    have hpos : 0 < sizeOf t := by cases t <;> simp_arith
    omega
  | succ n ih =>
    intro t ht s
    cases t with
    | terminal tok => rfl
    | ruleNode r cs =>
      have hch : ∀ c ∈ cs, ∀ s' : σ, walk (BNGParserListener σ) c s' = s' := by
        intro c hc s'
        apply ih c ?_ s'
        have h1 := List.sizeOf_lt_of_mem hc
        have h2 : sizeOf (ParseTree.ruleNode r cs) = 1 + sizeOf r + sizeOf cs := by
          simp_arith
        omega
      have hw : walk (BNGParserListener σ) (.ruleNode r cs) s =
          (BNGParserListener σ).exitRule r
            (walkChildren (BNGParserListener σ) cs
              ((BNGParserListener σ).enterRule r s)) := rfl
      rw [hw]
      have hent : (BNGParserListener σ).enterRule r s = s := baseEnter_eq r s
      rw [hent, walkChildren_noop (BNGParserListener σ) cs hch s]
      exact baseExit_eq r s

/-- C10: every enter and exit handler of the generated BNGParserListener base
class is a no-op, so walking any parse tree with the unextended base listener
is a total function that leaves the external state unchanged. -/
theorem listener_noop_c10 :
    (∀ (σ : Type) (r : BNGRule) (s : σ),
        (BNGParserListener σ).enterRule r s = s ∧ (BNGParserListener σ).exitRule r s = s) ∧
    (∀ (σ : Type) (t : ParseTree) (s : σ), walk (BNGParserListener σ) t s = s) :=
  ⟨fun σ r s => ⟨baseEnter_eq r s, baseExit_eq r s⟩,
   fun σ t s => walk_noop_aux (sizeOf t) t (Nat.le_refl _) s⟩

end BNG
